import Mathlib

/-!
Verification development for the `dash2gps` pipeline:
a shallow embedding of `src/parser.rs`, `src/watcher.rs` and the worker /
track-assembly logic of `src/main.rs`, together with theorems settling the
specification claims about them.
-/

namespace Dash2gps

/-! ## Characters and digit strings

`\d` in the parser's pattern is modelled as the ASCII decimal digits, which is
exact for all text considered here. -/

/-- ASCII decimal digit test, the character class `\d` of the pattern. -/
def isDigitChar (c : Char) : Bool := 48 ≤ c.toNat && c.toNat ≤ 57

/-- Value of a digit string, accumulated left to right exactly as Rust's
`str::parse` does for the digit-only strings the pattern captures. -/
def digitsToNat (s : List Char) : Nat := s.foldl (fun a c => a * 10 + (c.toNat - 48)) 0

/-- The digit-only part of Rust `str::parse` for signed integers: a nonempty
all-digit string yields its value, anything else fails. -/
def digitsValue (s : List Char) : Option Nat :=
  if s ≠ [] ∧ s.all isDigitChar then some (digitsToNat s) else none

/-- Rust `str::parse` into a signed integer type whose largest value is
`maxPos` (so `i8` is `parseSigned 127`, `i64` is `parseSigned (2^63 - 1)`):
an optional sign followed by digits, failing on overflow.  The source checks
overflow while accumulating; for digit strings the accumulated value only
grows, so that is equivalent to comparing the final value with the bound. -/
def parseSigned (maxPos : Nat) (s : List Char) : Option Int :=
  match s with
  | [] => none
  | c :: rest =>
    if c = '-' then
      (digitsValue rest).bind fun n => if n ≤ maxPos + 1 then some (-(n : Int)) else none
    else if c = '+' then
      (digitsValue rest).bind fun n => if n ≤ maxPos then some ((n : Int)) else none
    else
      (digitsValue (c :: rest)).bind fun n => if n ≤ maxPos then some ((n : Int)) else none

/-! ## The regex engine

`CoordinateDms::try_parse` uses the single pattern

`([N|S])[^\d]*(\d*)[^°]*°[^\d]*(\d*)[^\d]*(\d*).*([E|W])[^\d]*(\d*)[^°]*°[^\d]*(\d*)[^\d]*(\d*)`

whose items are only literals, character classes, greedy stars of character
classes, and capture groups of a class or a class-star (no nesting).  The Rust
`regex` crate has leftmost-first, Perl-like semantics, which for such a flat
pattern is exactly greedy matching with backtracking: a star first consumes the
maximal run of class characters and gives characters back one at a time when
the remainder of the pattern fails. -/

/-- One item of a flat pattern. -/
inductive Item where
  | lit (c : Char)
  | cls (p : Char → Bool)
  | starCls (p : Char → Bool)
  | groupCls (p : Char → Bool)
  | groupStar (p : Char → Bool)

/-- All ways a greedy class-star can split the input into a consumed run of
class characters and a remainder, longest consumed run first — the order in
which a backtracking engine tries them. -/
def starSplits (p : Char → Bool) : List Char → List (List Char × List Char)
  | [] => [([], [])]
  | c :: s =>
    if p c then ((starSplits p s).map fun pr => (c :: pr.1, pr.2)) ++ [([], c :: s)]
    else [([], c :: s)]

/-- Try the continuation on each candidate remainder in order (plain star:
the consumed run is not captured). -/
def firstMatchStar (f : List Char → Option (List (List Char) × List Char)) :
    List (List Char × List Char) → Option (List (List Char) × List Char)
  | [] => none
  | pr :: more =>
    match f pr.2 with
    | some r => some r
    | none => firstMatchStar f more

/-- Try the continuation on each candidate remainder in order, recording the
consumed run as a new leading capture (captured star `(\d*)` etc.). -/
def firstMatchCap (f : List Char → Option (List (List Char) × List Char)) :
    List (List Char × List Char) → Option (List (List Char) × List Char)
  | [] => none
  | pr :: more =>
    match f pr.2 with
    | some r => some (pr.1 :: r.1, r.2)
    | none => firstMatchCap f more

/-- Match a flat pattern at the start of the input, returning the captures in
group order and the unconsumed remainder.  The pattern need not consume the
whole input. -/
def matchItems : List Item → List Char → Option (List (List Char) × List Char)
  | [], s => some ([], s)
  | .lit c :: rest, s =>
    match s with
    | [] => none
    | c' :: s' => if c' = c then matchItems rest s' else none
  | .cls p :: rest, s =>
    match s with
    | [] => none
    | c' :: s' => if p c' then matchItems rest s' else none
  | .groupCls p :: rest, s =>
    match s with
    | [] => none
    | c' :: s' =>
      if p c' then (matchItems rest s').map fun pr => ([c'] :: pr.1, pr.2) else none
  | .starCls p :: rest, s => firstMatchStar (matchItems rest) (starSplits p s)
  | .groupStar p :: rest, s => firstMatchCap (matchItems rest) (starSplits p s)

/-- Leftmost match: `Regex::captures_iter(...)` followed by taking the first
element, as the `for … { return … }` in `try_parse` does — try the pattern at
every start position, earliest first. -/
def findMatch (items : List Item) : List Char → Option (List (List Char))
  | [] =>
    match matchItems items [] with
    | some pr => some pr.1
    | none => none
  | c :: s' =>
    match matchItems items (c :: s') with
    | some pr => some pr.1
    | none => findMatch items s'

/-- The DMS pattern of `CoordinateDms::try_parse`, item by item.  `.` in the
Rust `regex` crate matches every character except a newline; a negated class
such as `[^\d]` also matches a newline. -/
def dmsRegex : List Item :=
  [ .groupCls (fun c => c == 'N' || c == '|' || c == 'S')
  , .starCls (fun c => ! isDigitChar c)
  , .groupStar isDigitChar
  , .starCls (fun c => ! (c == '°'))
  , .lit '°'
  , .starCls (fun c => ! isDigitChar c)
  , .groupStar isDigitChar
  , .starCls (fun c => ! isDigitChar c)
  , .groupStar isDigitChar
  , .starCls (fun c => ! (c == '\n'))
  , .groupCls (fun c => c == 'E' || c == '|' || c == 'W')
  , .starCls (fun c => ! isDigitChar c)
  , .groupStar isDigitChar
  , .starCls (fun c => ! (c == '°'))
  , .lit '°'
  , .starCls (fun c => ! isDigitChar c)
  , .groupStar isDigitChar
  , .starCls (fun c => ! isDigitChar c)
  , .groupStar isDigitChar ]

/-! ## The coordinate parser (`src/parser.rs`) -/

/-- `DirectionLat` of the source. -/
inductive DirectionLat where
  | North
  | South
  deriving DecidableEq

/-- `DirectionLon` of the source. -/
inductive DirectionLon where
  | East
  | West
  deriving DecidableEq

/-- `FromStr for DirectionLat`: exactly `"N"` and `"S"` parse. -/
def parseDirectionLat : List Char → Option DirectionLat
  | ['N'] => some .North
  | ['S'] => some .South
  | _ => none

/-- `FromStr for DirectionLon`: exactly `"E"` and `"W"` parse. -/
def parseDirectionLon : List Char → Option DirectionLon
  | ['E'] => some .East
  | ['W'] => some .West
  | _ => none

/-- `CoordinateDms` of the source.  The numeric fields are `i8` in Rust; they
are modelled as unbounded integers, with the `i8` range enforced where the
source parses (`parseSigned 127`). -/
structure CoordinateDms where
  lat_direction : DirectionLat
  lat_degree : Int
  lat_min : Int
  lat_sec : Int
  lon_direction : DirectionLon
  lon_degree : Int
  lon_min : Int
  lon_sec : Int
  deriving DecidableEq

/-- The `O -> 0`, `Q -> 0` substitutions applied before matching. -/
def replaceZeroLookalikes (s : String) : String :=
  ⟨s.data.map fun c => if c = 'O' then '0' else if c = 'Q' then '0' else c⟩

/-- Field extraction from the first match's captures: each of the eight
captures is parsed with `?`, any failure aborting the whole parse (this models
the `Err` paths of `try_parse`; the caller discards errors). -/
def parseCaps : List (List Char) → Option CoordinateDms
  | [c1, c2, c3, c4, c5, c6, c7, c8] =>
    match parseDirectionLat c1, parseSigned 127 c2, parseSigned 127 c3, parseSigned 127 c4,
        parseDirectionLon c5, parseSigned 127 c6, parseSigned 127 c7, parseSigned 127 c8 with
    | some latd, some latDeg, some latMin, some latSec,
      some lond, some lonDeg, some lonMin, some lonSec =>
      some ⟨latd, latDeg, latMin, latSec, lond, lonDeg, lonMin, lonSec⟩
    | _, _, _, _, _, _, _, _ => none
  | _ => none

/-- `CoordinateDms::try_parse`: substitute the zero look-alikes, take the
first match of the pattern, parse its eight captures.  `none` covers every
`Err` of the source (no match, or a field that fails to parse). -/
def CoordinateDms.try_parse (input : String) : Option CoordinateDms :=
  match findMatch dmsRegex (replaceZeroLookalikes input).data with
  | some caps => parseCaps caps
  | none => none

/-- `Coordinate` of the source. -/
inductive Coordinate where
  | DegreeMinSec (dms : CoordinateDms)
  deriving DecidableEq

/-- Split on `'\n'`, keeping empty segments, as Rust `str::split("\n")`. -/
def splitNewlines : List Char → List (List Char)
  | [] => [[]]
  | c :: rest =>
    if c = '\n' then [] :: splitNewlines rest
    else
      match splitNewlines rest with
      | l :: ls => (c :: l) :: ls
      | [] => [[c]]

/-- `parse_coordinate_from_lines`: split the OCR text into lines, parse each
line independently, and keep the successes (the `flatten` drops every
failure without raising). -/
def parse_coordinate_from_lines (lines : String) : List Coordinate :=
  ((splitNewlines lines.data).filterMap fun l => CoordinateDms.try_parse ⟨l⟩).map
    Coordinate.DegreeMinSec

/-- Rational-number model of `Coordinate::to_decimal`: the source computes
`degree as f32 + min as f32 / 60.0 + sec as f32 / 3600.0` per axis, negates
for `South`/`West`, and formats the two `f32` values; this model keeps the
exact rational value of that computation. -/
def Coordinate.to_decimal : Coordinate → ℚ × ℚ
  | .DegreeMinSec dms =>
    let lat : ℚ := (dms.lat_degree : ℚ) + (dms.lat_min : ℚ) / 60 + (dms.lat_sec : ℚ) / 3600
    let lon : ℚ := (dms.lon_degree : ℚ) + (dms.lon_min : ℚ) / 60 + (dms.lon_sec : ℚ) / 3600
    ( (match dms.lat_direction with | .North => lat | .South => -lat)
    , (match dms.lon_direction with | .East => lon | .West => -lon) )

/-- The captures appear literally in the text, in order: `CapsEmbed caps s`
says `s` decomposes as junk, the first capture, junk, the second capture, …
with the remainder of `s` after the last capture unconstrained. -/
def CapsEmbed : List (List Char) → List Char → Prop
  | [], _ => True
  | c :: cs, s => ∃ g s', s = g ++ c ++ s' ∧ CapsEmbed cs s'

/-- Shape of the capture list produced by a flat pattern: one single-character
capture satisfying its class per `groupCls`, one all-class-characters capture
per `groupStar`, nothing else. -/
def capsOf : List Item → List (List Char) → Prop
  | [], caps => caps = []
  | .lit _ :: rest, caps => capsOf rest caps
  | .cls _ :: rest, caps => capsOf rest caps
  | .starCls _ :: rest, caps => capsOf rest caps
  | .groupCls p :: rest, caps => ∃ c cs, caps = [c] :: cs ∧ p c = true ∧ capsOf rest cs
  | .groupStar p :: rest, caps => ∃ g cs, caps = g :: cs ∧ (∀ c ∈ g, p c = true) ∧ capsOf rest cs

/-- The latitude hemisphere a capture character denotes (used to state the
parser theorems; junk characters default to `South`, matching nothing in the
source — theorems only apply it to `'N'` and `'S'`). -/
def dirLatOfChar (c : Char) : DirectionLat := if c = 'N' then .North else .South

/-- The longitude hemisphere a capture character denotes. -/
def dirLonOfChar (c : Char) : DirectionLon := if c = 'E' then .East else .West

/-! ## The worker (`process_frames_worker` in `src/main.rs`)

Per-frame state and processing.  `last_checkpoint_duration_sec` is a `u32` in
the source (it is added to the `u32` CLI `interval`), so its additions are
taken modulo `2^32`. -/

/-- `2^32`, the modulus of Rust `u32` arithmetic. -/
def u32Mod : Nat := 4294967296

/-- The worker-local mutable state of `process_frames_worker`: the most recent
coordinate and the accumulated duration.  The source initialises the duration
to the literal `10`. -/
structure WorkerState where
  last_coordinate : Option Coordinate
  last_checkpoint_duration_sec : Nat
  deriving DecidableEq

/-- A call to `Coordinate::speed_from` (the speed computation): the current
coordinate, the previous one, and the elapsed seconds handed to it via
`chrono::Duration::seconds`.  `speed_from` itself is an external numeric
routine; the claims are about which arguments reach it. -/
structure SpeedCall where
  current : Coordinate
  prev : Coordinate
  elapsed_sec : Nat
  deriving DecidableEq

/-- The fix/no-fix arm of the worker body: if the frame's parsed coordinate
list is nonempty, add one interval to the duration, compute the speed against
the previous coordinate when one exists using the incremented duration, store
the frame's LAST coordinate, and reset the duration to zero; otherwise just
add one interval and produce no speed. -/
def handleParsedFrame (interval : Nat) (st : WorkerState) (coordinates : List Coordinate) :
    WorkerState × Option SpeedCall :=
  match coordinates.getLast? with
  | some current =>
    let d := (st.last_checkpoint_duration_sec + interval) % u32Mod
    ( { last_coordinate := some current, last_checkpoint_duration_sec := 0 }
    , st.last_coordinate.map fun last => ⟨current, last, d⟩ )
  | none =>
    ( { last_coordinate := st.last_coordinate
      , last_checkpoint_duration_sec := (st.last_checkpoint_duration_sec + interval) % u32Mod }
    , none )

/-- UTF-8 width in bytes of a character, used to model Rust's byte-indexed
string slicing. -/
def utf8Width (c : Char) : Nat :=
  if c.toNat < 128 then 1 else if c.toNat < 2048 then 2 else if c.toNat < 65536 then 3 else 4

/-- Drop exactly `n` bytes from the front; `none` when `n` is not a character
boundary (where Rust slicing panics) or past the end. -/
def dropBytes : List Char → Nat → Option (List Char)
  | cs, 0 => some cs
  | [], _ + 1 => none
  | c :: cs, n + 1 =>
    if utf8Width c ≤ n + 1 then dropBytes cs (n + 1 - utf8Width c) else none
termination_by structural cs => cs

/-- Take exactly `n` bytes from the front; `none` when `n` is not a character
boundary or past the end. -/
def takeBytes : List Char → Nat → Option (List Char)
  | _, 0 => some []
  | [], _ + 1 => none
  | c :: cs, n + 1 =>
    if utf8Width c ≤ n + 1 then (takeBytes cs (n + 1 - utf8Width c)).map (c :: ·) else none
termination_by structural cs => cs

/-- The frame-number computation of the worker:
`file_name[1..10].parse::<i64>().unwrap() - 1`.  `none` models the panics
(slice out of bounds / not on a boundary, or the parse failing). -/
def frameNoFromName (name : String) : Option Int :=
  (dropBytes name.data 1).bind fun t =>
    (takeBytes t 9).bind fun slice =>
      (parseSigned 9223372036854775807 slice).map fun n => n - 1

/-- Modelled from the spec: `Coordinate::to_decimal_with_format` is not among
the provided sources (only its call site is); the spec says the output line
template substitutes the decimal latitude and longitude for the `{lat}` and
`{lon}` placeholders.  The decimal values are rendered with an exact rational
notation standing in for the `f32` display of the source. -/
def ratRender (q : ℚ) : String :=
  toString q.num ++ (if q.den = 1 then "" else "/" ++ toString q.den)

/-- Replace every non-overlapping occurrence of `pat` in `s`, left to right,
as Rust `str::replace`. -/
def replaceList (pat rep : List Char) : List Char → List Char
  | [] => []
  | c :: s =>
    if pat ≠ [] ∧ pat.isPrefixOf (c :: s) then
      rep ++ replaceList pat rep ((c :: s).drop pat.length)
    else
      c :: replaceList pat rep s
termination_by s => s.length
decreasing_by
  · simp only [List.length_drop, List.length_cons]
    have : pat.length ≠ 0 := by
      rcases ‹pat ≠ [] ∧ _› with ⟨h, _⟩
      simpa [List.length_eq_zero] using h
    omega
  · simp

/-- Modelled from the spec: template substitution for one coordinate. -/
def to_decimal_with_format (c : Coordinate) (fmt : String) : String :=
  let d := Coordinate.to_decimal c
  ⟨replaceList "{lon}".data (ratRender d.2).data
    (replaceList "{lat}".data (ratRender d.1).data fmt.data)⟩

/-- One line of standard output of the worker.  The source prints
`"{prefix}{coordinates.join(\"|\")}"`; the prefix, present exactly when a
recording start time was established, is kept structurally as the derived
absolute time (seconds) together with the speed value printed next to it. -/
structure OutputLine where
  prefixData : Option (Int × Option SpeedCall)
  parts : List String
  deriving DecidableEq

/-- One iteration of the worker loop body after a frame was received, from
`match detect_location(...)`.  Returns the new state, the `speed_from` call
made (if any), the standard-output lines, and the standard-error lines;
`none` models a panic (the `unwrap`s of the timestamp computation).
`detectResult` is the outcome of `detect_location` (the external
preprocess-and-OCR step): `ok` carries the recognised text, `error` any
per-frame failure. -/
def workerIteration (interval : Nat) (outFormat : String) (startDate : Option Int)
    (st : WorkerState) (sourceName : String) (detectResult : Except String String) :
    Option (WorkerState × Option SpeedCall × List OutputLine × List String) :=
  match detectResult with
  | .error e => some (st, none, [], ["Error: " ++ e ++ " (" ++ sourceName ++ ")"])
  | .ok location =>
    let coordinates := parse_coordinate_from_lines location
    let (st', speed) := handleParsedFrame interval st coordinates
    let formatted := coordinates.map fun c => to_decimal_with_format c outFormat
    if formatted.isEmpty then
      some (st', speed, [], [])
    else
      match startDate with
      | some sd =>
        match frameNoFromName sourceName with
        | some frameNo =>
          some (st', speed, [⟨some (sd + frameNo * (interval : Int), speed), formatted⟩], [])
        | none => none
      | none => some (st', speed, [⟨none, formatted⟩], [])

/-- Run the worker over a list of received frames (name and
`detect_location` outcome), collecting speed calls and output; `none` when
some iteration panics. -/
def workerRunFrames (interval : Nat) (outFormat : String) (startDate : Option Int) :
    WorkerState → List (String × Except String String) →
    Option (WorkerState × List SpeedCall × List OutputLine × List String)
  | st, [] => some (st, [], [], [])
  | st, (name, res) :: rest =>
    (workerIteration interval outFormat startDate st name res).bind
      fun (st', call, outs, errs) =>
        (workerRunFrames interval outFormat startDate st' rest).map
          fun (stF, calls, outsR, errsR) =>
            (stF, call.toList ++ calls, outs ++ outsR, errs ++ errsR)

/-- Run `handleParsedFrame` over a list of already-parsed frames
(the `Ok` arm of every iteration), recording each frame's speed call. -/
def runParsedFrames (interval : Nat) :
    WorkerState → List (List Coordinate) → WorkerState × List (Option SpeedCall)
  | st, [] => (st, [])
  | st, fixes :: rest =>
    let (st', call) := handleParsedFrame interval st fixes
    let (stF, calls) := runParsedFrames interval st' rest
    (stF, call :: calls)

/-! ## The worker loop and the shutdown flag

`main` stores `true` into `SHUTDOWN_REQUESTED` after frame extraction
finishes; each worker re-checks the flag at the top of its
`while !SHUTDOWN_REQUESTED.load(..)` loop and otherwise polls the queue with a
timeout, processing the received frame.  The model below keeps the loop's
control structure: the fuel counts loop-condition checks, the flag is the
value the worker observes (it is set once and never cleared), and processing
a frame is recorded by appending it to `processed`. -/

/-- Queue, observed flag and processing log of one worker. -/
structure WorkerLoopState where
  queue : List Nat
  shutdown_requested : Bool
  processed : List Nat
  deriving DecidableEq

/-- One pass of the loop body: `recv_timeout` either times out (empty queue,
`continue`) or delivers the next frame, which is processed before the next
condition check. -/
def workerPoll (s : WorkerLoopState) : WorkerLoopState :=
  match s.queue with
  | [] => s
  | f :: rest =>
    { queue := rest, shutdown_requested := s.shutdown_requested
    , processed := s.processed ++ [f] }

/-- The worker loop: check the flag; exit if set, otherwise poll once and
repeat. -/
def workerLoop : Nat → WorkerLoopState → WorkerLoopState
  | 0, s => s
  | n + 1, s => if s.shutdown_requested then s else workerLoop n (workerPoll s)

/-! ## The watcher (`src/watcher.rs`)

The notification callback of `FsWatcher::new`.  The `notify` crate event
kinds are modelled to the depth the source's single pattern
`EventKind::Access(AccessKind::Close(AccessMode::Write))` distinguishes; the
payloads of the other kinds play no role in the match. -/

/-- `notify::event::AccessMode`. -/
inductive AccessMode where
  | any
  | execute
  | read
  | write
  | other
  deriving DecidableEq

/-- `notify::event::AccessKind`. -/
inductive AccessKind where
  | any
  | read
  | «open» (mode : AccessMode)
  | close (mode : AccessMode)
  | other
  deriving DecidableEq

/-- `notify::EventKind` (payloads of the non-access kinds omitted; the
callback never inspects them). -/
inductive EventKind where
  | any
  | access (kind : AccessKind)
  | create
  | modify
  | remove
  | other
  deriving DecidableEq

/-- A `notify::Event`: its kind and its path list. -/
structure NotifyEvent where
  kind : EventKind
  paths : List String
  deriving DecidableEq

/-- The path the callback hands to `try_send`, if any: only an
`Ok` event of kind `Access(Close(Write))` with at least one path leads to a
send, and then of the event's first path. -/
def watcherOnEvent (res : Except Unit NotifyEvent) : Option String :=
  match res with
  | .error _ => none
  | .ok e =>
    match e.kind with
    | .access (.close .write) => e.paths.head?
    | _ => none

/-- The whole callback run against a channel that is either alive or
deallocated: the messages actually delivered, and the callback's return value
— the send result is discarded (`_ = change.try_send(..)`), so the callback
always returns `()` and never propagates a delivery failure. -/
def watcherCallbackRun (res : Except Unit NotifyEvent) (channelAlive : Bool) :
    List String × Unit :=
  match watcherOnEvent res with
  | some p => ((if channelAlive then [p] else []), ())
  | none => ([], ())

/-! ## Frame preprocessing (`detect_location` in `src/main.rs`)

The transform chain `crop(0, h-50, w, 50) → grayscale → invert →
adjust_contrast(-500) → brighten(50) → PNG`.  The pixel operations and the
PNG encoder live in the external `image` crate; they are modelled as fixed
pure functions (integer models of the crate's formulas).  The pipeline is
given an explicit environment carrying the process's wall clock and a random
stream — the sources of run-to-run variation available to the program — which
`detect_location` never reads. -/

/-- Run-to-run varying inputs available to the process. -/
structure PipelineEnv where
  wall_clock : Nat
  random : Nat → Nat

/-- A decoded source image: dimensions and RGB channels. -/
structure SourceImage where
  width : Nat
  height : Nat
  red : Nat → Nat → Nat
  green : Nat → Nat → Nat
  blue : Nat → Nat → Nat

/-- A single-channel image. -/
structure GrayImage where
  width : Nat
  height : Nat
  pixel : Nat → Nat → Nat

/-- `crop(0, height - 50, width, 50)` followed by `grayscale()`: keep the
bottom 50-pixel strip and convert to luma (integer model of the crate's
RGB-to-luma weights). -/
def cropBottomGray (img : SourceImage) : GrayImage :=
  { width := img.width
  , height := min 50 img.height
  , pixel := fun x y =>
      (2126 * img.red x (img.height - 50 + y) + 7152 * img.green x (img.height - 50 + y)
        + 722 * img.blue x (img.height - 50 + y)) / 10000 }

/-- `invert()`: `255 - v` per pixel. -/
def invertGray (g : GrayImage) : GrayImage :=
  { g with pixel := fun x y => 255 - g.pixel x y }

/-- `adjust_contrast(-500.0)`: integer model of the crate's formula
`((v/255 - 0.5) * percent + 0.5) * 255` with `percent = -4`, clamped to
`[0, 255]` (the exact value is `637.5 - 4 v`). -/
def adjustContrastNeg500 (g : GrayImage) : GrayImage :=
  { g with
    pixel := fun x y =>
      let v := g.pixel x y
      if 8 * v ≤ 765 then 255 else if 1275 ≤ 8 * v then 0 else (1275 - 8 * v) / 2 }

/-- `brighten(50)`: saturating add per pixel. -/
def brighten50 (g : GrayImage) : GrayImage :=
  { g with pixel := fun x y => min 255 (g.pixel x y + 50) }

/-- The PNG encoding of the crate is deterministic; it is modelled as a fixed
serialisation of the pixel grid. -/
def pngBytes (g : GrayImage) : List Nat :=
  g.width :: g.height ::
    (List.range g.height).flatMap fun y => (List.range g.width).map fun x => g.pixel x y

/-- The preprocessing part of `detect_location`: the output file name is
derived from the source file name alone (`"{}-edit.jpg"`), and the written
bytes are the encoding of the transformed image.  The environment parameter
records that the computation has access to the clock and randomness; the
source never consults either. -/
def preprocessFrame (env : PipelineEnv) (sourceName : String) (img : SourceImage) :
    String × List Nat :=
  (sourceName ++ "-edit.jpg", pngBytes (brighten50 (adjustContrastNeg500 (invertGray (cropBottomGray img)))))

/-! # Theorems -/

/-! ## C1: worker shutdown behaviour -/

/-- C1 counterexample: with the shutdown flag already observed set and one
frame still on the queue — a frame enqueued before shutdown — the worker
exits processing nothing, however much further polling it is allowed: the
queued frame is dropped, contradicting the claim that every frame enqueued
before shutdown is processed before exit. -/
theorem worker_loop_drops_enqueued_frame :
    (workerLoop 5 { queue := [7], shutdown_requested := true, processed := [] }).processed = []
      ∧ ({ queue := [7], shutdown_requested := true, processed := [] } : WorkerLoopState).queue ≠ [] := by
  constructor
  · rfl
  · decide

/-- C1 amended: the worker exits at the first loop-condition check at which
the shutdown flag is observed set, immediately and regardless of the queue
contents (no draining); while the flag is unset, each check is followed by one
poll of the queue. -/
theorem worker_loop_exits_on_shutdown (n : Nat) (s : WorkerLoopState)
    (h : s.shutdown_requested = true) :
    workerLoop n s = s
      ∧ ∀ s' : WorkerLoopState, s'.shutdown_requested = false →
          workerLoop (n + 1) s' = workerLoop n (workerPoll s') := by
  constructor
  · cases n <;> simp [workerLoop, h]
  · intro s' h'
    simp [workerLoop, h']

/-- Witness for C1's amended theorem at a concrete state. -/
theorem worker_loop_exits_on_shutdown_witness :
    workerLoop 3 { queue := [1, 2], shutdown_requested := true, processed := [] }
      = { queue := [1, 2], shutdown_requested := true, processed := [] } :=
  (worker_loop_exits_on_shutdown 3 _ rfl).1

/-! ## Matcher lemmas (towards C2) -/

/-- Every candidate split of a greedy class-star reassembles the input, and
its consumed run consists of class characters. -/
theorem starSplits_mem (p : Char → Bool) :
    ∀ (s : List Char) (pr : List Char × List Char), pr ∈ starSplits p s →
      s = pr.1 ++ pr.2 ∧ ∀ c ∈ pr.1, p c = true := by
  intro s
  induction s with
  | nil =>
    intro pr hpr
    simp [starSplits] at hpr
    subst hpr
    simp
  | cons c s ih =>
    intro pr hpr
    simp only [starSplits] at hpr
    by_cases hc : p c
    · simp [hc] at hpr
      rcases hpr with ⟨a, b, hab, heq⟩ | heq
      · obtain ⟨h1, h2⟩ := ih (a, b) hab
        subst heq
        refine ⟨by simp [h1], ?_⟩
        intro x hx
        rcases List.mem_cons.mp hx with hx' | hx'
        · subst hx'; exact hc
        · exact h2 x hx'
      · subst heq
        simp
    · simp [hc] at hpr
      subst hpr
      simp

/-- If trying candidates in order (plain star) succeeds, some candidate's
remainder succeeds with the same result. -/
theorem firstMatchStar_eq_some (f : List Char → Option (List (List Char) × List Char)) :
    ∀ (l : List (List Char × List Char)) (r : List (List Char) × List Char),
      firstMatchStar f l = some r → ∃ pr ∈ l, f pr.2 = some r := by
  intro l
  induction l with
  | nil => intro r h; simp [firstMatchStar] at h
  | cons pr more ih =>
    intro r h
    simp only [firstMatchStar] at h
    cases hf : f pr.2 with
    | some r' =>
      rw [hf] at h
      exact ⟨pr, by simp, by simpa using h ▸ hf⟩
    | none =>
      rw [hf] at h
      obtain ⟨pr', h1, h2⟩ := ih r h
      exact ⟨pr', by simp [h1], h2⟩

/-- If trying candidates in order (captured star) succeeds, some candidate's
remainder succeeds and the result prepends that candidate's consumed run as a
capture. -/
theorem firstMatchCap_eq_some (f : List Char → Option (List (List Char) × List Char)) :
    ∀ (l : List (List Char × List Char)) (r : List (List Char) × List Char),
      firstMatchCap f l = some r →
        ∃ pr ∈ l, ∃ caps rest, f pr.2 = some (caps, rest) ∧ r = (pr.1 :: caps, rest) := by
  intro l
  induction l with
  | nil => intro r h; simp [firstMatchCap] at h
  | cons pr more ih =>
    intro r h
    simp only [firstMatchCap] at h
    cases hf : f pr.2 with
    | some r' =>
      rw [hf] at h
      refine ⟨pr, by simp, r'.1, r'.2, by simp [hf], ?_⟩
      cases h
      rfl
    | none =>
      rw [hf] at h
      obtain ⟨pr', h1, h2⟩ := ih r h
      exact ⟨pr', by simp [h1], h2⟩

/-- A literal embedding survives prepending one junk character. -/
theorem capsEmbed_cons_gap (caps : List (List Char)) (c : Char) (s : List Char)
    (h : CapsEmbed caps s) : CapsEmbed caps (c :: s) := by
  cases caps with
  | nil => trivial
  | cons c0 cs =>
    obtain ⟨g, s', heq, hrest⟩ := h
    exact ⟨c :: g, s', by simp [heq], hrest⟩

/-- A literal embedding survives prepending any junk run. -/
theorem capsEmbed_append_gap (caps : List (List Char)) (t s : List Char)
    (h : CapsEmbed caps s) : CapsEmbed caps (t ++ s) := by
  induction t with
  | nil => exact h
  | cons c t ih => exact capsEmbed_cons_gap _ c _ ih

/-- A successful match embeds its captures literally, in order, in the text
it matched against. -/
theorem matchItems_capsEmbed :
    ∀ (items : List Item) (s : List Char) (caps : List (List Char)) (rest : List Char),
      matchItems items s = some (caps, rest) → CapsEmbed caps s := by
  intro items
  induction items with
  | nil =>
    intro s caps rest h
    simp [matchItems] at h
    simp [h.1, CapsEmbed]
  | cons it rest ih =>
    intro s caps rem h
    cases it with
    | lit c =>
      cases s with
      | nil => simp [matchItems] at h
      | cons c' s' =>
        simp only [matchItems] at h
        by_cases hc : c' = c
        · rw [if_pos hc] at h
          exact capsEmbed_cons_gap _ _ _ (ih s' caps rem h)
        · rw [if_neg hc] at h; cases h
    | cls p =>
      cases s with
      | nil => simp [matchItems] at h
      | cons c' s' =>
        simp only [matchItems] at h
        by_cases hc : p c'
        · rw [if_pos hc] at h
          exact capsEmbed_cons_gap _ _ _ (ih s' caps rem h)
        · rw [if_neg hc] at h; cases h
    | groupCls p =>
      cases s with
      | nil => simp [matchItems] at h
      | cons c' s' =>
        simp only [matchItems] at h
        by_cases hc : p c'
        · rw [if_pos hc] at h
          rw [Option.map_eq_some'] at h
          obtain ⟨pr, hpr, heq⟩ := h
          have hembed := ih s' pr.1 pr.2 (by simpa using hpr)
          have hcaps : caps = [c'] :: pr.1 := by
            have := congrArg Prod.fst heq
            simpa using this.symm
          subst hcaps
          exact ⟨[], s', by simp, hembed⟩
        · rw [if_neg hc] at h; cases h
    | starCls p =>
      simp only [matchItems] at h
      obtain ⟨pr, hmem, hf⟩ := firstMatchStar_eq_some _ _ _ h
      obtain ⟨hsplit, _⟩ := starSplits_mem p s pr hmem
      rw [hsplit]
      exact capsEmbed_append_gap _ _ _ (ih pr.2 caps rem hf)
    | groupStar p =>
      simp only [matchItems] at h
      obtain ⟨pr, hmem, caps', rest', hf, heq⟩ := firstMatchCap_eq_some _ _ _ h
      obtain ⟨hsplit, _⟩ := starSplits_mem p s pr hmem
      have hcaps : caps = pr.1 :: caps' := by
        have := congrArg Prod.fst heq
        simpa using this
      subst hcaps
      rw [hsplit]
      exact ⟨[], pr.2, by simp, ih pr.2 caps' rest' hf⟩

/-- A successful match produces captures of the shape dictated by the
pattern's group items: one class character per `groupCls`, one run of class
characters per `groupStar`. -/
theorem matchItems_capsOf :
    ∀ (items : List Item) (s : List Char) (caps : List (List Char)) (rest : List Char),
      matchItems items s = some (caps, rest) → capsOf items caps := by
  intro items
  induction items with
  | nil =>
    intro s caps rest h
    simp [matchItems] at h
    simp [h.1, capsOf]
  | cons it rest ih =>
    intro s caps rem h
    cases it with
    | lit c =>
      cases s with
      | nil => simp [matchItems] at h
      | cons c' s' =>
        simp only [matchItems] at h
        by_cases hc : c' = c
        · rw [if_pos hc] at h
          exact ih s' caps rem h
        · rw [if_neg hc] at h; cases h
    | cls p =>
      cases s with
      | nil => simp [matchItems] at h
      | cons c' s' =>
        simp only [matchItems] at h
        by_cases hc : p c'
        · rw [if_pos hc] at h
          exact ih s' caps rem h
        · rw [if_neg hc] at h; cases h
    | groupCls p =>
      cases s with
      | nil => simp [matchItems] at h
      | cons c' s' =>
        simp only [matchItems] at h
        by_cases hc : p c'
        · rw [if_pos hc] at h
          rw [Option.map_eq_some'] at h
          obtain ⟨pr, hpr, heq⟩ := h
          have hcaps : caps = [c'] :: pr.1 := by
            have := congrArg Prod.fst heq
            simpa using this.symm
          exact ⟨c', pr.1, hcaps, hc, ih s' pr.1 pr.2 (by simpa using hpr)⟩
        · rw [if_neg hc] at h; cases h
    | starCls p =>
      simp only [matchItems] at h
      obtain ⟨pr, hmem, hf⟩ := firstMatchStar_eq_some _ _ _ h
      exact ih pr.2 caps rem hf
    | groupStar p =>
      simp only [matchItems] at h
      obtain ⟨pr, hmem, caps', rest', hf, heq⟩ := firstMatchCap_eq_some _ _ _ h
      obtain ⟨_, hall⟩ := starSplits_mem p s pr hmem
      have hcaps : caps = pr.1 :: caps' := by
        have := congrArg Prod.fst heq
        simpa using this
      exact ⟨pr.1, caps', hcaps, hall, ih pr.2 caps' rest' hf⟩

/-- A leftmost-match success comes from a full match at some start position,
and its captures embed literally in the searched text. -/
theorem findMatch_sound :
    ∀ (items : List Item) (s : List Char) (caps : List (List Char)),
      findMatch items s = some caps →
        (∃ s₀ rest, matchItems items s₀ = some (caps, rest)) ∧ CapsEmbed caps s := by
  intro items s
  induction s with
  | nil =>
    intro caps h
    simp only [findMatch] at h
    cases hm : matchItems items [] with
    | some pr =>
      rw [hm] at h
      cases h
      exact ⟨⟨[], pr.2, by simpa using hm⟩, matchItems_capsEmbed items [] pr.1 pr.2 (by simpa using hm)⟩
    | none => rw [hm] at h; cases h
  | cons c s' ih =>
    intro caps h
    simp only [findMatch] at h
    cases hm : matchItems items (c :: s') with
    | some pr =>
      rw [hm] at h
      cases h
      exact ⟨⟨c :: s', pr.2, by simpa using hm⟩,
        matchItems_capsEmbed items (c :: s') pr.1 pr.2 (by simpa using hm)⟩
    | none =>
      rw [hm] at h
      obtain ⟨hex, hembed⟩ := ih caps h
      exact ⟨hex, capsEmbed_cons_gap _ _ _ hembed⟩

/-- `parseSigned` on a nonempty all-digit string within the bound recovers
exactly the string's value. -/
theorem parseSigned_digits (maxPos : Nat) (s : List Char) (hne : s ≠ [])
    (hall : ∀ c ∈ s, isDigitChar c = true) (hb : digitsToNat s ≤ maxPos) :
    parseSigned maxPos s = some ((digitsToNat s : Int)) := by
  cases s with
  | nil => exact absurd rfl hne
  | cons c rest =>
    have hc := hall c (by simp)
    have hcm : c ≠ '-' := by rintro rfl; exact absurd hc (by decide)
    have hcp : c ≠ '+' := by rintro rfl; exact absurd hc (by decide)
    simp only [parseSigned, if_neg hcm, if_neg hcp]
    rw [digitsValue, if_pos ⟨by simp, List.all_eq_true.mpr hall⟩]
    simp [hb]

/-- A capture list with an empty numeric field never parses (the `?` on the
empty string's integer parse fails). -/
theorem parseCaps_empty_field_none (c1 c5 a b c d e f : List Char)
    (h : a = [] ∨ b = [] ∨ c = [] ∨ d = [] ∨ e = [] ∨ f = []) :
    parseCaps [c1, a, b, c, c5, d, e, f] = none := by
  rcases h with rfl | rfl | rfl | rfl | rfl | rfl <;> simp only [parseCaps]
  · cases parseDirectionLat c1 <;> rfl
  · cases parseDirectionLat c1 <;> cases parseSigned 127 a <;> rfl
  · cases parseDirectionLat c1 <;> cases parseSigned 127 a <;> cases parseSigned 127 b <;> rfl
  · cases parseDirectionLat c1 <;> cases parseSigned 127 a <;> cases parseSigned 127 b <;>
      cases parseSigned 127 c <;> cases parseDirectionLon c5 <;> rfl
  · cases parseDirectionLat c1 <;> cases parseSigned 127 a <;> cases parseSigned 127 b <;>
      cases parseSigned 127 c <;> cases parseDirectionLon c5 <;> cases parseSigned 127 d <;> rfl
  · cases parseDirectionLat c1 <;> cases parseSigned 127 a <;> cases parseSigned 127 b <;>
      cases parseSigned 127 c <;> cases parseDirectionLon c5 <;> cases parseSigned 127 d <;>
      cases parseSigned 127 e <;> rfl

/-! ## C2: the coordinate parser on matching lines -/

/-- C2 counterexample: the line `N51°25 48” E150°19 20”` matches the
documented pattern — all eight fields are present as literal text, with a
longitude degree of 150, inside the 0–180 range the claim allows — yet the
parser produces no fix at all (150 does not parse as a signed 8-bit integer),
so the claim's universally quantified conclusion fails at this line. -/
theorem try_parse_degree_150_no_fix :
    findMatch dmsRegex (replaceZeroLookalikes "N51°25 48” E150°19 20”").data
        = some [['N'], ['5', '1'], ['2', '5'], ['4', '8'], ['E'], ['1', '5', '0'],
            ['1', '9'], ['2', '0']]
      ∧ CoordinateDms.try_parse "N51°25 48” E150°19 20”" = none
      ∧ parse_coordinate_from_lines "N51°25 48” E150°19 20”" = [] := by
  refine ⟨by decide, by decide, by decide⟩

/-- C2 amended: for every text line on which the documented pattern finds a
match after the `O`/`Q` → `0` substitutions, the eight captured fields are
literal text of the substituted line, in order (`CapsEmbed`), the hemisphere
captures come from the classes `[N|S]` / `[E|W]` and the six numeric captures
are digit runs; when the hemisphere letters are genuine (`N`/`S`, `E`/`W`)
and every numeric field is present with value at most 127 — the signed 8-bit
bound, not the 0–180 range the claim states — the parser returns exactly the
fix spelled by those literal fields; a line whose match is missing any
numeric field yields no fix. -/
theorem try_parse_matching_line (line : String) (d1 d5 : Char)
    (dg mn sc dg2 mn2 sc2 : List Char)
    (hm : findMatch dmsRegex (replaceZeroLookalikes line).data
        = some [[d1], dg, mn, sc, [d5], dg2, mn2, sc2]) :
    ((d1 = 'N' ∨ d1 = '|' ∨ d1 = 'S') ∧ (d5 = 'E' ∨ d5 = '|' ∨ d5 = 'W')
        ∧ (∀ c ∈ dg, isDigitChar c = true) ∧ (∀ c ∈ mn, isDigitChar c = true)
        ∧ (∀ c ∈ sc, isDigitChar c = true) ∧ (∀ c ∈ dg2, isDigitChar c = true)
        ∧ (∀ c ∈ mn2, isDigitChar c = true) ∧ (∀ c ∈ sc2, isDigitChar c = true))
      ∧ CapsEmbed [[d1], dg, mn, sc, [d5], dg2, mn2, sc2] (replaceZeroLookalikes line).data
      ∧ ((d1 = 'N' ∨ d1 = 'S') → (d5 = 'E' ∨ d5 = 'W') →
          dg ≠ [] → mn ≠ [] → sc ≠ [] → dg2 ≠ [] → mn2 ≠ [] → sc2 ≠ [] →
          digitsToNat dg ≤ 127 → digitsToNat mn ≤ 127 → digitsToNat sc ≤ 127 →
          digitsToNat dg2 ≤ 127 → digitsToNat mn2 ≤ 127 → digitsToNat sc2 ≤ 127 →
          CoordinateDms.try_parse line = some
            ⟨dirLatOfChar d1, (digitsToNat dg : Int), (digitsToNat mn : Int),
              (digitsToNat sc : Int), dirLonOfChar d5, (digitsToNat dg2 : Int),
              (digitsToNat mn2 : Int), (digitsToNat sc2 : Int)⟩)
      ∧ ((dg = [] ∨ mn = [] ∨ sc = [] ∨ dg2 = [] ∨ mn2 = [] ∨ sc2 = []) →
          CoordinateDms.try_parse line = none) := by
  obtain ⟨⟨s₀, rest, hmatch⟩, hembed⟩ := findMatch_sound _ _ _ hm
  have hshape := matchItems_capsOf _ _ _ _ hmatch
  simp only [dmsRegex, capsOf] at hshape
  obtain ⟨e1, t1, q1, hp1, e2, t2, q2, hp2, e3, t3, q3, hp3, e4, t4, q4, hp4,
      e5, t5, q5, hp5, e6, t6, q6, hp6, e7, t7, q7, hp7, e8, t8, q8, hp8, -⟩ := hshape
  injection q1 with qa qb
  injection qa with qa1 qa2
  rw [← qb] at q2
  injection q2 with qc qd
  rw [← qd] at q3
  injection q3 with qe qf
  rw [← qf] at q4
  injection q4 with qg qh
  rw [← qh] at q5
  injection q5 with qi qj
  injection qi with qi1 qi2
  rw [← qj] at q6
  injection q6 with qk ql
  rw [← ql] at q7
  injection q7 with qm qn
  rw [← qn] at q8
  injection q8 with qo qp
  rw [← qa1] at hp1
  rw [← qc] at hp2
  rw [← qe] at hp3
  rw [← qg] at hp4
  rw [← qi1] at hp5
  rw [← qk] at hp6
  rw [← qm] at hp7
  rw [← qo] at hp8
  refine ⟨⟨?_, ?_, hp2, hp3, hp4, hp6, hp7, hp8⟩, hembed, ?_, ?_⟩
  · have h' := hp1
    simp only [Bool.or_eq_true, beq_iff_eq] at h'
    tauto
  · have h' := hp5
    simp only [Bool.or_eq_true, beq_iff_eq] at h'
    tauto
  · intro hd1 hd5 n1 n2 n3 n4 n5 n6 b1 b2 b3 b4 b5 b6
    simp only [CoordinateDms.try_parse, hm]
    simp only [parseCaps]
    rw [parseSigned_digits 127 dg n1 hp2 b1, parseSigned_digits 127 mn n2 hp3 b2,
      parseSigned_digits 127 sc n3 hp4 b3, parseSigned_digits 127 dg2 n4 hp6 b4,
      parseSigned_digits 127 mn2 n5 hp7 b5, parseSigned_digits 127 sc2 n6 hp8 b6]
    rcases hd1 with rfl | rfl <;> rcases hd5 with rfl | rfl <;> rfl
  · intro hemp
    simp only [CoordinateDms.try_parse, hm]
    exact parseCaps_empty_field_none _ _ _ _ _ _ _ _ hemp

/-- Witness for C2's amended theorem: the Q-misread line
`N51°25 48” EQ°19 20”` matches the pattern after substitution and parses to
exactly the literal fields, with the `Q` recovered as longitude degree `0`. -/
theorem try_parse_matching_line_witness :
    CoordinateDms.try_parse "N51°25 48” EQ°19 20”" = some
      ⟨dirLatOfChar 'N', ((5 * 10 + 1 : Nat) : Int), ((2 * 10 + 5 : Nat) : Int),
        ((4 * 10 + 8 : Nat) : Int), dirLonOfChar 'E', ((0 : Nat) : Int),
        ((1 * 10 + 9 : Nat) : Int), ((2 * 10 + 0 : Nat) : Int)⟩ := by
  have h := try_parse_matching_line "N51°25 48” EQ°19 20”" 'N' 'E'
    ['5', '1'] ['2', '5'] ['4', '8'] ['0'] ['1', '9'] ['2', '0'] (by decide)
  have h3 := h.2.2.1 (Or.inl rfl) (Or.inl rfl) (by decide) (by decide) (by decide)
    (by decide) (by decide) (by decide) (by decide) (by decide) (by decide)
    (by decide) (by decide) (by decide)
  exact h3

/-! ## C4: the end-to-end scenario line -/

/-- C4: the test line yields exactly one DMS fix with fields
`(N, 51, 25, 48, E, 0, 19, 20)`, whose decimal conversion is `51.43` exactly
in latitude and within `10^-4` of `0.3222` in longitude (the exact value is
`29/90 = 0.3222…`). -/
theorem end_to_end_line_parse :
    parse_coordinate_from_lines "N51°25 48” E0°19 20” 51MPH 12:42:29 06/06/2021"
        = [Coordinate.DegreeMinSec ⟨.North, 51, 25, 48, .East, 0, 19, 20⟩]
      ∧ (Coordinate.to_decimal (Coordinate.DegreeMinSec
            ⟨.North, 51, 25, 48, .East, 0, 19, 20⟩)).1 = 5143 / 100
      ∧ |(Coordinate.to_decimal (Coordinate.DegreeMinSec
            ⟨.North, 51, 25, 48, .East, 0, 19, 20⟩)).2 - 3222 / 10000| < 1 / 10000 := by
  refine ⟨by decide, by norm_num [Coordinate.to_decimal], ?_⟩
  have h2 : (Coordinate.to_decimal (Coordinate.DegreeMinSec
      ⟨.North, 51, 25, 48, .East, 0, 19, 20⟩)).2 = 29 / 90 := by
    norm_num [Coordinate.to_decimal]
  rw [h2, abs_sub_lt_iff]
  norm_num

/-! ## C3: speed-duration accumulation -/

/-- Processing frames that yield no fix only accumulates the interval. -/
theorem runParsedFrames_no_fix (interval : Nat) :
    ∀ (k : Nat) (st : WorkerState),
      st.last_checkpoint_duration_sec + k * interval < u32Mod →
      runParsedFrames interval st (List.replicate k []) =
        ( { last_coordinate := st.last_coordinate
          , last_checkpoint_duration_sec := st.last_checkpoint_duration_sec + k * interval }
        , List.replicate k none ) := by
  intro k
  induction k with
  | zero => intro st _; simp [runParsedFrames]
  | succ k ih =>
    intro st hlt
    have hd : (k + 1) * interval = k * interval + interval := by ring
    rw [hd] at hlt
    have hstep : st.last_checkpoint_duration_sec + interval < u32Mod := by omega
    have hnone : handleParsedFrame interval st []
        = ( { last_coordinate := st.last_coordinate
            , last_checkpoint_duration_sec := (st.last_checkpoint_duration_sec + interval) % u32Mod }
          , none ) := rfl
    simp only [List.replicate_succ, runParsedFrames, hnone]
    rw [Nat.mod_eq_of_lt hstep]
    rw [ih { last_coordinate := st.last_coordinate
           , last_checkpoint_duration_sec := st.last_checkpoint_duration_sec + interval }
         (by simp only []; omega)]
    have harr : st.last_checkpoint_duration_sec + interval + k * interval
        = st.last_checkpoint_duration_sec + (k + 1) * interval := by ring
    simp [harr]

/-- Running over concatenated frame lists runs them in sequence. -/
theorem runParsedFrames_append (interval : Nat) :
    ∀ (l1 l2 : List (List Coordinate)) (st : WorkerState),
      runParsedFrames interval st (l1 ++ l2) =
        ( (runParsedFrames interval (runParsedFrames interval st l1).1 l2).1
        , (runParsedFrames interval st l1).2
            ++ (runParsedFrames interval (runParsedFrames interval st l1).1 l2).2 ) := by
  intro l1
  induction l1 with
  | nil => intro l2 st; simp [runParsedFrames]
  | cons fs l1 ih =>
    intro l2 st
    simp only [List.cons_append, List.append_eq, runParsedFrames]
    rw [ih]

/-- C3: starting from the state left by a frame that yielded a fix (duration
zero, a stored coordinate), after exactly `K` fixless frames a frame with a
fix computes its speed over elapsed seconds `(K+1) × interval`, and every
frame that yields a fix resets the accumulated duration to zero and stores
the frame's last coordinate.  The bound keeps the `u32` duration counter from
wrapping. -/
theorem speed_elapsed_accumulation (interval K : Nat) (c0 c : Coordinate) (st : WorkerState)
    (h0 : st.last_coordinate = some c0)
    (h1 : st.last_checkpoint_duration_sec = 0)
    (h2 : (K + 1) * interval < u32Mod) :
    (runParsedFrames interval st (List.replicate K [] ++ [[c]])).2.getLast?
        = some (some ⟨c, c0, (K + 1) * interval⟩)
      ∧ ∀ (st' : WorkerState) (fixes : List Coordinate) (cur : Coordinate),
          fixes.getLast? = some cur →
          (handleParsedFrame interval st' fixes).1
            = { last_coordinate := some cur, last_checkpoint_duration_sec := 0 } := by
  have hd : (K + 1) * interval = K * interval + interval := by ring
  rw [hd] at h2
  constructor
  · rw [runParsedFrames_append]
    rw [runParsedFrames_no_fix interval K st (by omega)]
    have hfix : handleParsedFrame interval
        { last_coordinate := some c0, last_checkpoint_duration_sec := 0 + K * interval } [c]
        = ( { last_coordinate := some c, last_checkpoint_duration_sec := 0 }
          , some ⟨c, c0, (0 + K * interval + interval) % u32Mod⟩ ) := by
      simp [handleParsedFrame, List.getLast?]
    simp only [h0, h1, runParsedFrames, hfix]
    have hmod : (0 + K * interval + interval) % u32Mod = (K + 1) * interval := by
      rw [Nat.mod_eq_of_lt (by omega), hd]
      omega
    rw [hmod]
    simp
  · intro st' fixes cur hcur
    simp [handleParsedFrame, hcur]

/-- Witness for C3 at interval 10 with two fixless frames between fixes. -/
theorem speed_elapsed_accumulation_witness :
    (runParsedFrames 10
        { last_coordinate := some (Coordinate.DegreeMinSec ⟨.North, 1, 2, 3, .East, 4, 5, 6⟩)
        , last_checkpoint_duration_sec := 0 }
        (List.replicate 2 [] ++ [[Coordinate.DegreeMinSec ⟨.North, 7, 8, 9, .West, 1, 2, 3⟩]])).2.getLast?
      = some (some ⟨Coordinate.DegreeMinSec ⟨.North, 7, 8, 9, .West, 1, 2, 3⟩,
          Coordinate.DegreeMinSec ⟨.North, 1, 2, 3, .East, 4, 5, 6⟩, (2 + 1) * 10⟩) :=
  (speed_elapsed_accumulation 10 2
    (Coordinate.DegreeMinSec ⟨.North, 1, 2, 3, .East, 4, 5, 6⟩)
    (Coordinate.DegreeMinSec ⟨.North, 7, 8, 9, .West, 1, 2, 3⟩)
    _ rfl rfl (by decide)).1

/-! ## C5: decimal conversion -/

/-- C5: for every DMS fix the derived decimal coordinate is
`degree + minute/60 + second/3600` on each axis, negated exactly for a
`South` latitude or a `West` longitude and left unnegated (the positive
magnitude) for `North` and `East`. -/
theorem to_decimal_formula (dms : CoordinateDms) :
    Coordinate.to_decimal (Coordinate.DegreeMinSec dms) =
      ( (if dms.lat_direction = .South then -1 else 1)
          * ((dms.lat_degree : ℚ) + (dms.lat_min : ℚ) / 60 + (dms.lat_sec : ℚ) / 3600)
      , (if dms.lon_direction = .West then -1 else 1)
          * ((dms.lon_degree : ℚ) + (dms.lon_min : ℚ) / 60 + (dms.lon_sec : ℚ) / 3600) ) := by
  obtain ⟨latd, a, b, c, lond, d, e, f⟩ := dms
  cases latd <;> cases lond <;> simp [Coordinate.to_decimal] <;> ring

/-! ## C6: the watcher callback -/

/-- C6 counterexample: an event whose kind is precisely a close of a
write-capable handle but which carries no path leads to no publication, so
"a path is published if and only if the event kind is a close of a
write-capable file handle" fails in the only-if→if direction at this event. -/
theorem watcher_close_write_no_path_not_published :
    watcherOnEvent (.ok { kind := .access (.close .write), paths := [] }) = none
      ∧ ({ kind := .access (.close .write), paths := [] } : NotifyEvent).kind
          = .access (.close .write) := by
  constructor <;> rfl

/-- C6 amended: a path is published if and only if the event kind is a close
of a write-capable handle AND the event carries at least one path (then the
first path is sent); no other kind — creation, metadata change, read-only
close — ever publishes, and the callback discards the delivery outcome,
returning normally whether or not the channel is still alive. -/
theorem watcher_publish_iff (e : NotifyEvent) (res : Except Unit NotifyEvent) (alive : Bool) :
    ((∃ p, watcherOnEvent (.ok e) = some p)
        ↔ e.kind = .access (.close .write) ∧ e.paths ≠ [])
      ∧ (watcherCallbackRun res true).1 = (watcherOnEvent res).toList
      ∧ (watcherCallbackRun res false).1 = []
      ∧ (watcherCallbackRun res alive).2 = () := by
  refine ⟨?_, ?_, ?_, rfl⟩
  · constructor
    · rintro ⟨p, hp⟩
      obtain ⟨k, paths⟩ := e
      cases paths with
      | nil =>
        exfalso
        cases k with
        | access ak =>
          cases ak with
          | close m => cases m <;> simp [watcherOnEvent] at hp
          | «open» m => simp [watcherOnEvent] at hp
          | _ => simp [watcherOnEvent] at hp
        | _ => simp [watcherOnEvent] at hp
      | cons q qs =>
        refine ⟨?_, by simp⟩
        cases k with
        | access ak =>
          cases ak with
          | close m => cases m <;> simp_all [watcherOnEvent]
          | «open» m => simp [watcherOnEvent] at hp
          | _ => simp [watcherOnEvent] at hp
        | _ => simp [watcherOnEvent] at hp
    · rintro ⟨hk, hp⟩
      obtain ⟨k, paths⟩ := e
      subst hk
      cases paths with
      | nil => simp at hp
      | cons q qs => exact ⟨q, rfl⟩
  · cases h : watcherOnEvent res <;> simp [watcherCallbackRun, h]
  · cases h : watcherOnEvent res <;> simp [watcherCallbackRun, h]

/-! ## C7: recoverable per-frame errors -/

/-- C7 counterexample: a frame whose OCR succeeds but whose text yields no
valid fix is skipped with an EMPTY standard-error output — the parser finding
no valid fix is not written to standard error at all, contrary to the claim
(only `detect_location` failures are logged). -/
theorem worker_no_fix_not_logged :
    parse_coordinate_from_lines "no telemetry on this frame" = []
      ∧ workerIteration 10 "{lat},{lon}" none
          { last_coordinate := none, last_checkpoint_duration_sec := 10 }
          "f000000001.jpg" (.ok "no telemetry on this frame")
        = some ( { last_coordinate := none, last_checkpoint_duration_sec := 20 }
               , none, [], [] ) := by
  refine ⟨by decide, by decide⟩

/-- C7 amended: a `detect_location` failure (image decode or OCR engine
error) is written to standard error tagged with the frame path, the frame is
skipped with the worker state unchanged, and the worker continues with the
remaining frames; a frame whose text yields no fix is also skipped and the
worker continues, but silently — nothing is written to standard error for
it. -/
theorem worker_error_logging (interval : Nat) (fmt : String) (sd : Option Int)
    (st : WorkerState) (name e : String) (rest : List (String × Except String String)) :
    workerIteration interval fmt sd st name (.error e)
        = some (st, none, [], ["Error: " ++ e ++ " (" ++ name ++ ")"])
      ∧ workerRunFrames interval fmt sd st ((name, .error e) :: rest)
          = (workerRunFrames interval fmt sd st rest).map
              (fun r => (r.1, r.2.1, r.2.2.1, ("Error: " ++ e ++ " (" ++ name ++ ")") :: r.2.2.2))
      ∧ workerIteration interval fmt sd st name (.ok "")
          = some ( { last_coordinate := st.last_coordinate
                   , last_checkpoint_duration_sec :=
                       (st.last_checkpoint_duration_sec + interval) % u32Mod }
                 , none, [], [] ) := by
  refine ⟨rfl, ?_, ?_⟩
  · cases h : workerRunFrames interval fmt sd st rest with
    | none => simp [workerRunFrames, workerIteration, h]
    | some r => simp [workerRunFrames, workerIteration, h]
  · have hp : parse_coordinate_from_lines "" = [] := rfl
    simp [workerIteration, hp, handleParsedFrame]

/-! ## C9: only the last fix of a frame feeds the speed state -/

/-- C9: on a frame whose OCR text yields fixes, only the LAST fix (in line
order) is stored as the worker's last coordinate and used as the current
coordinate of the speed computation against the previous one, while the
printed output line carries every fix of the frame, formatted and in order. -/
theorem last_fix_updates_state (interval : Nat) (fmt name text : String)
    (st : WorkerState) (c : Coordinate)
    (h : (parse_coordinate_from_lines text).getLast? = some c) :
    workerIteration interval fmt none st name (.ok text)
      = some ( { last_coordinate := some c, last_checkpoint_duration_sec := 0 }
             , st.last_coordinate.map
                 (fun last => ⟨c, last, (st.last_checkpoint_duration_sec + interval) % u32Mod⟩)
             , [⟨none, (parse_coordinate_from_lines text).map
                   fun cc => to_decimal_with_format cc fmt⟩]
             , [] ) := by
  have hne : parse_coordinate_from_lines text ≠ [] := by
    intro hh
    rw [hh] at h
    cases h
  have hemp : ((parse_coordinate_from_lines text).map
      fun cc => to_decimal_with_format cc fmt).isEmpty = false := by
    rw [List.isEmpty_eq_false]
    simpa using hne
  simp [workerIteration, handleParsedFrame, h, hemp]

/-- Witness for C9 on a frame with two fixes: the state and speed use the
second fix, the output shows both. -/
theorem last_fix_updates_state_witness :
    workerIteration 10 "{lat},{lon}" none
        { last_coordinate := some (Coordinate.DegreeMinSec ⟨.North, 0, 0, 0, .East, 0, 0, 0⟩)
        , last_checkpoint_duration_sec := 5 } "f000000001.jpg"
        (.ok "N1°2 3” E4°5 6”\nN7°8 9” W1°2 3”")
      = some ( { last_coordinate := some (Coordinate.DegreeMinSec ⟨.North, 7, 8, 9, .West, 1, 2, 3⟩)
               , last_checkpoint_duration_sec := 0 }
             , (some (Coordinate.DegreeMinSec ⟨.North, 0, 0, 0, .East, 0, 0, 0⟩)).map
                 (fun last => ⟨Coordinate.DegreeMinSec ⟨.North, 7, 8, 9, .West, 1, 2, 3⟩,
                   last, (5 + 10) % u32Mod⟩)
             , [⟨none, (parse_coordinate_from_lines "N1°2 3” E4°5 6”\nN7°8 9” W1°2 3”").map
                   fun cc => to_decimal_with_format cc "{lat},{lon}"⟩]
             , [] ) :=
  last_fix_updates_state 10 "{lat},{lon}" "f000000001.jpg" "N1°2 3” E4°5 6”\nN7°8 9” W1°2 3”"
    { last_coordinate := some (Coordinate.DegreeMinSec ⟨.North, 0, 0, 0, .East, 0, 0, 0⟩)
    , last_checkpoint_duration_sec := 5 }
    (Coordinate.DegreeMinSec ⟨.North, 7, 8, 9, .West, 1, 2, 3⟩) (by decide)

/-! ## C10: the frame-number slice of extractor-named files -/

/-- A digit character occupies one UTF-8 byte. -/
theorem utf8Width_digit (c : Char) (h : isDigitChar c = true) : utf8Width c = 1 := by
  simp only [isDigitChar, Bool.and_eq_true, decide_eq_true_eq] at h
  simp only [utf8Width]
  rw [if_pos (by omega)]

/-- Taking as many bytes as a one-byte-per-character run is long recovers
exactly that run. -/
theorem takeBytes_ascii : ∀ (l rest : List Char), (∀ c ∈ l, utf8Width c = 1) →
    takeBytes (l ++ rest) l.length = some l := by
  intro l
  induction l with
  | nil => intro rest _; simp [takeBytes]
  | cons c cs ih =>
    intro rest hall
    have hc : utf8Width c = 1 := hall c (by simp)
    simp only [List.cons_append, List.append_eq, List.length_cons, takeBytes, hc]
    rw [if_pos (by omega)]
    have harg : cs.length + 1 - 1 = cs.length := by omega
    rw [harg, ih rest fun x hx => hall x (by simp [hx])]
    rfl

/-- A digit string's value is below `10 ^ length`. -/
theorem digitsToNat_foldl_lt : ∀ (s : List Char), (∀ c ∈ s, isDigitChar c = true) →
    ∀ a : Nat, List.foldl (fun a c => a * 10 + (c.toNat - 48)) a s < (a + 1) * 10 ^ s.length := by
  intro s
  induction s with
  | nil => intro _ a; simp
  | cons c cs ih =>
    intro hall a
    simp only [List.foldl_cons, List.length_cons]
    have hd : c.toNat - 48 ≤ 9 := by
      have h := hall c (by simp)
      simp only [isDigitChar, Bool.and_eq_true, decide_eq_true_eq] at h
      omega
    calc List.foldl (fun a c => a * 10 + (c.toNat - 48)) (a * 10 + (c.toNat - 48)) cs
        < (a * 10 + (c.toNat - 48) + 1) * 10 ^ cs.length :=
          ih (fun x hx => hall x (by simp [hx])) (a * 10 + (c.toNat - 48))
      _ ≤ (a + 1) * 10 ^ (cs.length + 1) := by
          calc (a * 10 + (c.toNat - 48) + 1) * 10 ^ cs.length
              ≤ (a + 1) * 10 * 10 ^ cs.length := Nat.mul_le_mul_right _ (by omega)
            _ = (a + 1) * 10 ^ (cs.length + 1) := by ring

/-- C10: for every file named `f` + nine ASCII digits + `.jpg` (the
extractor's `f%09d.jpg` output pattern), the worker's byte slice `[1..10]`
of the name and the `i64` parse both succeed — no panic — and the resulting
0-based sequence index is the nine-digit number minus one. -/
theorem frame_sequence_index_parse (ds : List Char) (h9 : ds.length = 9)
    (hd : ∀ c ∈ ds, isDigitChar c = true) :
    frameNoFromName ⟨'f' :: (ds ++ ('.' :: 'j' :: 'p' :: 'g' :: []))⟩
      = some ((digitsToNat ds : Int) - 1) := by
  have hdata : (⟨'f' :: (ds ++ ('.' :: 'j' :: 'p' :: 'g' :: []))⟩ : String).data
      = 'f' :: (ds ++ ('.' :: 'j' :: 'p' :: 'g' :: [])) := rfl
  have hdrop : dropBytes ('f' :: (ds ++ ('.' :: 'j' :: 'p' :: 'g' :: []))) 1
      = some (ds ++ ('.' :: 'j' :: 'p' :: 'g' :: [])) := by
    simp [dropBytes, utf8Width]
  have htake : takeBytes (ds ++ ('.' :: 'j' :: 'p' :: 'g' :: [])) 9 = some ds := by
    rw [← h9]
    exact takeBytes_ascii ds _ fun c hc => utf8Width_digit c (hd c hc)
  have hne : ds ≠ [] := by
    intro hnil
    rw [hnil] at h9
    cases h9
  have hlt : digitsToNat ds < 10 ^ 9 := by
    have h := digitsToNat_foldl_lt ds hd 0
    rw [h9] at h
    simpa [digitsToNat] using h
  have hbound : digitsToNat ds ≤ 9223372036854775807 := by
    have hp : (10 : Nat) ^ 9 = 1000000000 := by norm_num
    rw [hp] at hlt
    omega
  unfold frameNoFromName
  rw [hdata, hdrop, Option.some_bind, htake, Option.some_bind,
    parseSigned_digits 9223372036854775807 ds hne hd hbound, Option.map_some']

/-- Witness for C10 at the first extractor frame name `f000000001.jpg`. -/
theorem frame_sequence_index_parse_witness :
    frameNoFromName ⟨'f' :: (['0', '0', '0', '0', '0', '0', '0', '0', '1']
        ++ ('.' :: 'j' :: 'p' :: 'g' :: []))⟩
      = some ((digitsToNat ['0', '0', '0', '0', '0', '0', '0', '0', '1'] : Int) - 1) :=
  frame_sequence_index_parse ['0', '0', '0', '0', '0', '0', '0', '0', '1']
    (by decide) (by decide)

/-! ## C8: preprocessing determinism -/

/-- C8: the frame-preprocessing transform (crop to the bottom strip,
grayscale, invert, contrast, brightness, PNG encode) depends only on the
source image and file name — it reads neither the clock nor any randomness —
so two runs on identical input produce the identical output file name and
byte sequence. -/
theorem preprocess_deterministic (e1 e2 : PipelineEnv) (name : String) (img : SourceImage) :
    preprocessFrame e1 name img = preprocessFrame e2 name img := rfl

end Dash2gps
